import Mathlib

/-!
# Verification of the `ayarla` dotfile installer

Shallow embedding of the two core components of the `ayarla` repository:

* `preflight.rs` — the Preflight Validator (`are_we_ready_for_takeoff`,
  `red_manifesto`, `checks`): validates a candidate settings directory and
  parses `manifest.toml` into a structured `Manifest`.
* `heyho.rs` — the Installer (`lets_go`): walks the manifest items and
  reconciles the filesystem by creating symbolic links, returning an
  aggregate `AyarlaStatus`.

The filesystem is modelled as a finite association list from canonical
absolute paths (component lists) to nodes (file with contents, directory,
or symbolic link carrying its target path).  Modelling choices, each noted
at the relevant definition:

* Paths are kept in component-normal form: empty and current-directory
  components are dropped at parse time.  This is faithful for every path
  the program manipulates, since manifest paths are only ever used joined
  onto a base (where Rust's `Path::components` drops them as well).  The
  empty relative path (no components) designates nothing, matching
  `stat("") = ENOENT`.
* Intermediate path components are resolved through real directories;
  a symbolic link is followed at the final component (chains are followed
  with fuel, so a link cycle behaves like `ELOOP`: the path
  does not exist).  The installer only ever creates links at final
  positions with fully canonical targets, so this covers the program's
  behaviour on the states the claims quantify over.
-/

set_option autoImplicit false

/-- A node of the modelled filesystem: a regular file carrying its text
contents, a directory, or a symbolic link carrying its target as a
canonical absolute component list. -/
inductive FNode where
  | file (contents : String)
  | dir
  | symlink (target : List String)
  deriving DecidableEq, Repr

/-- The modelled filesystem: a current working directory (used to
absolutize relative paths, as the real filesystem calls do) and a finite
association list from canonical absolute paths to nodes. -/
structure Fs where
  cwd : List String
  entries : List (List String × FNode)
  deriving DecidableEq, Repr

/-- A Rust `Path`/`PathBuf` in component-normal form: an absoluteness flag
and the list of normal components. -/
structure RPath where
  abs : Bool
  comps : List String
  deriving DecidableEq, Repr

/-- Whitespace characters trimmed by the manifest parser. -/
def isSpaceChar (c : Char) : Bool :=
  c = ' ' || c = '\t' || c = '\r'

/-- Trim leading and trailing whitespace from a character list. -/
def trimChars (cs : List Char) : List Char :=
  ((cs.dropWhile isSpaceChar).reverse.dropWhile isSpaceChar).reverse

/-- Split a character list on a separator character, returning the
separated groups (like `str::split`). -/
def splitChar (sep : Char) : List Char → List (List Char)
  | [] => [[]]
  | c :: rest =>
    if c = sep then [] :: splitChar sep rest
    else
      match splitChar sep rest with
      | [] => [[c]]
      | g :: gs => (c :: g) :: gs

/-- Embedding of building a `Path` from a Rust string: a leading `/` makes
the path absolute; empty and `.` components are dropped (as
`Path::components` does once the path is joined onto a base). -/
def parsePath (s : String) : RPath :=
  ⟨s.data.head? == some '/',
   ((splitChar '/' s.data).map String.mk).filter (fun c => !(c == "") && !(c == "."))⟩

/-- Embedding of `Path::join`: an absolute right-hand side replaces the
left-hand side, otherwise the components are appended. -/
def rjoin (p q : RPath) : RPath :=
  if q.abs then q else ⟨p.abs, p.comps ++ q.comps⟩

/-- Embedding of `Path::parent`: drop the final component; the root and
the empty path have no parent. -/
def parent (p : RPath) : Option RPath :=
  match p.comps with
  | [] => none
  | _ :: _ => some ⟨p.abs, p.comps.dropLast⟩

/-- Split a nonempty list into its initial segment and last element. -/
def splitLast : List String → Option (List String × String)
  | [] => none
  | [c] => some ([], c)
  | c :: c' :: rest =>
    match splitLast (c' :: rest) with
    | some (pre, last) => some (c :: pre, last)
    | none => none

/-- First-match lookup in the filesystem's association list. -/
def lookupKey : List (List String × FNode) → List String → Option FNode
  | [], _ => none
  | (k', n) :: rest, k => if k' = k then some n else lookupKey rest k

/-- The node stored at a canonical absolute key, if any. -/
def nodeAt (fs : Fs) (k : List String) : Option FNode :=
  lookupKey fs.entries k

/-- Absolutize a path against the filesystem's working directory. -/
def absComps (fs : Fs) (p : RPath) : List String :=
  if p.abs then p.comps else fs.cwd ++ p.comps

/-- Walk a component list from a resolved directory key, requiring every
intermediate node to be a real directory. -/
def walkDir (fs : Fs) : List String → List String → Option (List String)
  | acc, [] => some acc
  | acc, c :: rest =>
    match nodeAt fs (acc ++ [c]) with
    | some FNode.dir => walkDir fs (acc ++ [c]) rest
    | _ => none

/-- The canonical key a path literally designates: its parent chain is
resolved through directories and the final component is kept un-followed
(the `lstat` view).  The empty relative path designates nothing. -/
def locate (fs : Fs) (p : RPath) : Option (List String) :=
  if !p.abs && p.comps.isEmpty then none
  else
    match splitLast (absComps fs p) with
    | none => some []
    | some (pre, c) => (walkDir fs [] pre).map (fun k => k ++ [c])

/-- Follow symbolic-link indirections from a key to the node they denote,
with fuel; exhausted fuel (a link cycle) behaves like `ELOOP`. -/
def derefNode (fs : Fs) : Nat → List String → Option FNode
  | 0, _ => none
  | fuel + 1, k =>
    match nodeAt fs k with
    | some (FNode.symlink t) => derefNode fs fuel t
    | some n => some n
    | none => none

/-- Follow symbolic-link indirections from a key to the final canonical
key holding a non-link node. -/
def derefKey (fs : Fs) : Nat → List String → Option (List String)
  | 0, _ => none
  | fuel + 1, k =>
    match nodeAt fs k with
    | some (FNode.symlink t) => derefKey fs fuel t
    | some _ => some k
    | none => none

/-- The node a path refers to after following a final symbolic link
(the `stat` view). -/
def stat (fs : Fs) (p : RPath) : Option FNode :=
  match locate fs p with
  | none => none
  | some k => derefNode fs (fs.entries.length + 1) k

/-- Embedding of `Path::exists` (follows symbolic links; a dangling link
does not exist). -/
def pathExists (fs : Fs) (p : RPath) : Bool :=
  (stat fs p).isSome

/-- Embedding of `Path::is_dir` (follows symbolic links). -/
def isDir (fs : Fs) (p : RPath) : Bool :=
  match stat fs p with
  | some FNode.dir => true
  | _ => false

/-- Embedding of `Path::canonicalize`: the fully resolved canonical
absolute key; fails when the path does not refer to an existing node. -/
def canonicalizeOp (fs : Fs) (p : RPath) : Option (List String) :=
  (locate fs p).bind (derefKey fs (fs.entries.length + 1))

/-- Insert (or overwrite) a node at a canonical key. -/
def insertNode (fs : Fs) (k : List String) (n : FNode) : Fs :=
  ⟨fs.cwd, (k, n) :: fs.entries.filter (fun e => decide (e.1 ≠ k))⟩

/-- Remove the single node at a canonical key. -/
def eraseNode (fs : Fs) (k : List String) : Fs :=
  ⟨fs.cwd, fs.entries.filter (fun e => decide (e.1 ≠ k))⟩

/-- Remove a key and every key below it. -/
def removeTree (fs : Fs) (k : List String) : Fs :=
  ⟨fs.cwd, fs.entries.filter (fun e => !(k.isPrefixOf e.1))⟩

/-- Errors of the program, modelled as the tagged result type the spec's
design notes call for.  `panicked` models a Rust panic (from
`Option::unwrap`), kept distinct from ordinary I/O errors. -/
inductive AyarlaErr where
  | notFound (p : String)
  | notADirectory (p : String)
  | emptyDirectory (p : String)
  | manifestMissing (p : String)
  | nothingToInstall (p : String)
  | emptyManifest (p : String)
  | manifestParse (msg : String)
  | ioError (msg : String)
  | panicked (msg : String)
  deriving DecidableEq, Repr

/-- Decidable equality for `Except` results, used to evaluate concrete
runs in witnesses. -/
instance {e a : Type} [DecidableEq e] [DecidableEq a] : DecidableEq (Except e a) := fun x y =>
  match x, y with
  | .error v, .error w =>
    if h : v = w then .isTrue (by rw [h]) else .isFalse (fun hc => by cases hc; exact h rfl)
  | .error _, .ok _ => .isFalse (fun hc => by cases hc)
  | .ok _, .error _ => .isFalse (fun hc => by cases hc)
  | .ok v, .ok w =>
    if h : v = w then .isTrue (by rw [h]) else .isFalse (fun hc => by cases hc; exact h rfl)

/-- Whether an error is a panic (as opposed to a reported failure). -/
def AyarlaErr.isPanicked : AyarlaErr → Bool
  | .panicked _ => true
  | _ => false

/-- Embedding of `std::fs::remove_dir_all`: fails unless the path
literally designates a directory (a symbolic-link root is an error, as in
current Rust), then removes the whole subtree. -/
def removeDirAll (fs : Fs) (p : RPath) : Except AyarlaErr Fs :=
  match locate fs p with
  | some k =>
    match nodeAt fs k with
    | some FNode.dir => .ok (removeTree fs k)
    | _ => .error (.ioError "remove_dir_all")
  | none => .error (.ioError "remove_dir_all")

/-- Embedding of `std::fs::remove_file`: removes a regular file or a
symbolic link itself; fails on a directory or a missing node. -/
def removeFile (fs : Fs) (p : RPath) : Except AyarlaErr Fs :=
  match locate fs p with
  | some k =>
    match nodeAt fs k with
    | some (FNode.file _) => .ok (eraseNode fs k)
    | some (FNode.symlink _) => .ok (eraseNode fs k)
    | _ => .error (.ioError "remove_file")
  | none => .error (.ioError "remove_file")

/-- Create missing directories along a component chain; a non-directory
node in the way is an error. -/
def mkdirs : Fs → List String → List String → Except AyarlaErr Fs
  | fs, _, [] => .ok fs
  | fs, acc, c :: rest =>
    match nodeAt fs (acc ++ [c]) with
    | some FNode.dir => mkdirs fs (acc ++ [c]) rest
    | none => mkdirs (insertNode fs (acc ++ [c]) FNode.dir) (acc ++ [c]) rest
    | some _ => .error (.ioError "create_dir_all")

/-- Embedding of `std::fs::create_dir_all` (the empty path is a
successful no-op, as in `DirBuilder::create_dir_all`). -/
def createDirAll (fs : Fs) (p : RPath) : Except AyarlaErr Fs :=
  if !p.abs && p.comps.isEmpty then .ok fs
  else mkdirs fs [] (absComps fs p)

/-- Embedding of `std::os::unix::fs::symlink target link`: fails when the
link location cannot be designated, is the root, or already holds a node
(even a dangling link, `EEXIST`); otherwise records the link. -/
def symlinkOp (fs : Fs) (target : List String) (p : RPath) : Except AyarlaErr Fs :=
  match locate fs p with
  | some k =>
    if k.isEmpty then .error (.ioError "symlink")
    else
      match nodeAt fs k with
      | some _ => .error (.ioError "symlink: file exists")
      | none => .ok (insertNode fs k (FNode.symlink target))
  | none => .error (.ioError "symlink")

/-- The names of the children of a canonical directory key. -/
def childNames (fs : Fs) (k : List String) : List String :=
  fs.entries.filterMap (fun e =>
    match splitLast e.1 with
    | some (pre, c) => if pre = k then some c else none
    | none => none)

/-- Embedding of `std::fs::read_dir` followed by collecting the entries
(as `are_we_ready_for_takeoff` does): the child names of the directory
the path refers to. -/
def readDirOp (fs : Fs) (p : RPath) : Except AyarlaErr (List String) :=
  match (locate fs p).bind (derefKey fs (fs.entries.length + 1)) with
  | some k =>
    match nodeAt fs k with
    | some FNode.dir => .ok (childNames fs k)
    | _ => .error (.ioError "read_dir")
  | none => .error (.ioError "read_dir")

/-- Embedding of `std::fs::read_to_string`: the contents of the regular
file a path refers to. -/
def readToString (fs : Fs) (p : RPath) : Except AyarlaErr String :=
  match stat fs p with
  | some (FNode.file c) => .ok c
  | _ => .error (.ioError "read_to_string")

/-- Embedding of the `ManifestItem` struct from `preflight.rs`: `source`
and `destination` are required strings; `force` defaults to `false`
(`#[serde(default)]`). -/
structure ManifestItem where
  source : String
  destination : String
  force : Bool
  deriving DecidableEq, Repr

/-- Embedding of the `Manifest` struct from `preflight.rs`. -/
structure Manifest where
  manifest_items : List ManifestItem
  deriving DecidableEq, Repr

/-- A scalar TOML value of the manifest grammar. -/
inductive TomlVal where
  | str (s : String)
  | bool (b : Bool)
  deriving DecidableEq, Repr

/-- One `[[manifest_items]]` table: its key/value pairs in order. -/
abbrev TomlTable := List (String × TomlVal)

/-- Parse a scalar value: `true`, `false`, or a double-quoted string. -/
def parseVal (v : List Char) : Option TomlVal :=
  let t := trimChars v
  if t = "true".data then some (.bool true)
  else if t = "false".data then some (.bool false)
  else if 2 ≤ t.length ∧ t.head? = some '"' ∧ t.getLast? = some '"' then
    some (.str (String.mk ((t.drop 1).dropLast)))
  else none

/-- Modelled from the spec: the external `toml` crate's parser (not part
of this repository), restricted to the manifest grammar the spec
describes — an array of tables headed `[[manifest_items]]` whose lines
are `key = value` pairs with string or boolean scalars.  Returns `none`
when no `manifest_items` table appears at all (serde then reports the
missing `manifest_items` field). -/
def parseLines : Option TomlTable → List TomlTable → List (List Char) →
    Except String (Option (List TomlTable))
  | cur, acc, [] =>
    match cur with
    | some t => .ok (some (acc ++ [t]))
    | none => .ok (if acc.isEmpty then none else some acc)
  | cur, acc, line :: rest =>
    let l := trimChars line
    if l = [] then parseLines cur acc rest
    else if l = "[[manifest_items]]".data then
      match cur with
      | some t => parseLines (some []) (acc ++ [t]) rest
      | none => parseLines (some []) acc rest
    else
      match splitChar '=' l with
      | [k, v] =>
        match parseVal v with
        | some val =>
          match cur with
          | some t => parseLines (some (t ++ [(String.mk (trimChars k), val)])) acc rest
          | none => parseLines none acc rest
        | none => .error ("invalid value in line: " ++ String.mk l)
      | _ => .error ("invalid line: " ++ String.mk l)

/-- Split a manifest text into lines and parse the `manifest_items`
array of tables. -/
def parseTomlItems (s : String) : Except String (Option (List TomlTable)) :=
  parseLines none [] (splitChar '\n' s.data)

/-- Serde deserialization of one `[[manifest_items]]` table into a
`ManifestItem`, following the derive on the struct in `preflight.rs`:
`source` and `destination` are required strings, `force` is an optional
boolean defaulting to `false`, unknown keys are ignored. -/
def deserializeItem (t : TomlTable) : Except String ManifestItem :=
  match t.lookup "source" with
  | some (TomlVal.str src) =>
    match t.lookup "destination" with
    | some (TomlVal.str dst) =>
      match t.lookup "force" with
      | some (TomlVal.bool b) => .ok ⟨src, dst, b⟩
      | none => .ok ⟨src, dst, false⟩
      | some (TomlVal.str _) => .error "invalid type for key force"
    | some (TomlVal.bool _) => .error "invalid type for key destination"
    | none => .error "missing field destination"
  | some (TomlVal.bool _) => .error "invalid type for key source"
  | none => .error "missing field source"

/-- Deserialize the tables in order, failing on the first bad item. -/
def deserializeItems : List TomlTable → Except String (List ManifestItem)
  | [] => .ok []
  | t :: ts =>
    match deserializeItem t with
    | .error e => .error e
    | .ok it =>
      match deserializeItems ts with
      | .error e => .error e
      | .ok its => .ok (it :: its)

/-- Embedding of `red_manifesto` from `preflight.rs`: parse the manifest
text and deserialize it into a `Manifest`, wrapping any failure in the
manifest-parse error (`"Failed to parse manifest: …"`). -/
def red_manifesto (manifest_content : String) : Except AyarlaErr Manifest :=
  match parseTomlItems manifest_content with
  | .error e => .error (.manifestParse e)
  | .ok none => .error (.manifestParse "missing field manifest_items")
  | .ok (some tables) =>
    match deserializeItems tables with
    | .error e => .error (.manifestParse e)
    | .ok items => .ok ⟨items⟩

/-- The manifest file name constant from `preflight.rs`. -/
def MANIFEST_FILE_NAME : String := "manifest.toml"

/-- Embedding of `are_we_ready_for_takeoff` from `preflight.rs`: the
ordered, short-circuiting directory checks.  The filesystem is threaded
through and returned so that the absence of mutation is a statement, not
a typing accident. -/
def are_we_ready_for_takeoff (fs : Fs) (settings_directory : String) :
    Except AyarlaErr (RPath × String) × Fs :=
  let settings_directory_path := parsePath settings_directory
  if pathExists fs settings_directory_path = false then
    (.error (.notFound settings_directory), fs)
  else if isDir fs settings_directory_path = false then
    (.error (.notADirectory settings_directory), fs)
  else
    match readDirOp fs settings_directory_path with
    | .error e => (.error e, fs)
    | .ok dir_entries =>
      if dir_entries.isEmpty then
        (.error (.emptyDirectory settings_directory), fs)
      else if !(dir_entries.contains MANIFEST_FILE_NAME) then
        (.error (.manifestMissing settings_directory), fs)
      else if dir_entries.length = 1 then
        (.error (.nothingToInstall settings_directory), fs)
      else
        match readToString fs (rjoin settings_directory_path (parsePath MANIFEST_FILE_NAME)) with
        | .error e => (.error e, fs)
        | .ok manifest_content =>
          if manifest_content = "" then
            (.error (.emptyManifest settings_directory), fs)
          else
            (.ok (settings_directory_path, manifest_content), fs)

/-- Embedding of `checks` from `preflight.rs`: run the directory checks,
then parse the manifest, producing the validated (path, manifest) pair. -/
def checks (fs : Fs) (settings_directory : String) :
    Except AyarlaErr (RPath × Manifest) × Fs :=
  match are_we_ready_for_takeoff fs settings_directory with
  | (.error e, fs') => (.error e, fs')
  | (.ok (settings_dir_path, manifest_content), fs') =>
    match red_manifesto manifest_content with
    | .error e => (.error e, fs')
    | .ok manifest => (.ok (settings_dir_path, manifest), fs')

/-- Embedding of the `AyarlaStatus` enum from `heyho.rs`. -/
inductive AyarlaStatus where
  | Ok
  | Warn
  deriving DecidableEq, Repr

/-- Embedding of the body of the `for` loop of `lets_go` in `heyho.rs`
applied to one manifest item.  The returned flag is `true` exactly when
the item's source was missing (the loop then degrades the status to
`Warn`); the filesystem is returned alongside the outcome so that
partially performed mutations survive an error, as on the real
filesystem. -/
def processItem (fs : Fs) (base_path settings_dir_path : RPath)
    (item : ManifestItem) : Except AyarlaErr Bool × Fs :=
  let source_path := rjoin settings_dir_path (parsePath item.source)
  if pathExists fs source_path = false then
    (.ok true, fs)
  else
    let destination_path := rjoin base_path (parsePath item.destination)
    if pathExists fs destination_path && !item.force then
      (.ok false, fs)
    else
      match
        (if pathExists fs destination_path then
          (if isDir fs destination_path then removeDirAll fs destination_path
           else removeFile fs destination_path)
         else .ok fs) with
      | .error e => (.error e, fs)
      | .ok fs1 =>
        match parent destination_path with
        | none => (.error (.panicked "called unwrap on a None value"), fs1)
        | some par =>
          match (if pathExists fs1 par then .ok fs1 else createDirAll fs1 par) with
          | .error e => (.error e, fs1)
          | .ok fs2 =>
            match canonicalizeOp fs2 source_path with
            | none => (.error (.ioError "canonicalize"), fs2)
            | some original =>
              match symlinkOp fs2 original destination_path with
              | .error e => (.error e, fs2)
              | .ok fs3 => (.ok false, fs3)

/-- The item loop of `lets_go`: process the items in order, threading the
filesystem and the mutable `status` local (degraded to `Warn` when an
item's source was missing), aborting on the first error. -/
def lets_go_loop (base_path settings_dir_path : RPath) :
    Fs → AyarlaStatus → List ManifestItem → Except AyarlaErr AyarlaStatus × Fs
  | fs, status, [] => (.ok status, fs)
  | fs, status, item :: rest =>
    match processItem fs base_path settings_dir_path item with
    | (.error e, fs') => (.error e, fs')
    | (.ok missed, fs') =>
      lets_go_loop base_path settings_dir_path fs'
        (if missed then AyarlaStatus.Warn else status) rest

/-- Embedding of `lets_go` from `heyho.rs`: start with status `Ok` and
walk the manifest items. -/
def lets_go (fs : Fs) (base_path settings_dir_path : RPath)
    (manifest : Manifest) : Except AyarlaErr AyarlaStatus × Fs :=
  lets_go_loop base_path settings_dir_path fs AyarlaStatus.Ok manifest.manifest_items

/-- Specification-side replay: whether some item's computed source path is
missing at the moment that item comes up for processing (the filesystem
evolving by the same per-item steps); items after a fatal abort are never
processed and do not count. -/
def anyMiss (base_path settings_dir_path : RPath) :
    Fs → List ManifestItem → Bool
  | _, [] => false
  | fs, item :: rest =>
    if pathExists fs (rjoin settings_dir_path (parsePath item.source)) = false then
      true
    else
      match processItem fs base_path settings_dir_path item with
      | (.ok _, fs') => anyMiss base_path settings_dir_path fs' rest
      | (.error _, _) => false

/-! ### Concrete states used by the witnesses and counterexamples -/

/-- Settings and home directories with no configuration files present. -/
def fsMissingSources : Fs :=
  ⟨[], [([], .dir), (["set"], .dir), (["home"], .dir)]⟩

/-- The manifest of the repository's own installer tests: `.tmux.conf`
and `nvim → .config/nvim`, neither forced. -/
def manTwoItems : Manifest :=
  ⟨[⟨".tmux.conf", ".tmux.conf", false⟩, ⟨"nvim", ".config/nvim", false⟩]⟩

/-- A fully populated settings directory and an empty home directory. -/
def fsFullSettings : Fs :=
  ⟨[], [([], .dir), (["set"], .dir), (["set", ".tmux.conf"], .file ""),
        (["set", "nvim"], .dir), (["set", "nvim", ".nvim"], .file ""),
        (["home"], .dir)]⟩

/-- The state after installing `manTwoItems` from `fsFullSettings`:
both destinations exist as links into the settings directory. -/
def fsAfterInstall : Fs :=
  ⟨[], [(["home", ".config", "nvim"], .symlink ["set", "nvim"]),
        (["home", ".config"], .dir),
        (["home", ".tmux.conf"], .symlink ["set", ".tmux.conf"]),
        ([], .dir), (["set"], .dir), (["set", ".tmux.conf"], .file ""),
        (["set", "nvim"], .dir), (["set", "nvim", ".nvim"], .file ""),
        (["home"], .dir)]⟩

/-- A home with a pre-existing destination directory `d` (containing a
file) and a settings directory with a source file. -/
def fsForceDir : Fs :=
  ⟨[], [([], .dir), (["h"], .dir), (["h", "d"], .dir),
        (["h", "d", "f"], .file ""), (["s"], .dir), (["s", "src"], .file "x")]⟩

/-- A settings directory whose `src` exists; used with an empty base
path and an empty destination string. -/
def fsPanicState : Fs :=
  ⟨[], [([], .dir), (["s"], .dir), (["s", "src"], .file "")]⟩

/-- A home holding a dangling symbolic link at the destination `x`. -/
def fsDangling : Fs :=
  ⟨[], [([], .dir), (["s"], .dir), (["s", "a"], .file ""),
        (["h"], .dir), (["h", "x"], .symlink ["nowhere"])]⟩

/-- A valid settings directory at the absolute path `/s`. -/
def fsHappy : Fs :=
  ⟨[], [([], .dir), (["s"], .dir),
        (["s", "manifest.toml"],
          .file "[[manifest_items]]\nsource = \"a\"\ndestination = \"b\"\n"),
        (["s", "a"], .file "hi")]⟩

/-- A valid settings directory reached through the relative path `rel`
from the working directory `w`. -/
def fsRelative : Fs :=
  ⟨["w"], [([], .dir), (["w"], .dir), (["w", "rel"], .dir),
           (["w", "rel", "manifest.toml"],
             .file "[[manifest_items]]\nsource = \"a\"\ndestination = \"b\""),
           (["w", "rel", "x"], .file "")]⟩

/-- A settings directory whose entry named `manifest.toml` is a
directory, not a regular file, plus one other entry. -/
def fsManifestDir : Fs :=
  ⟨[], [([], .dir), (["d"], .dir), (["d", "manifest.toml"], .dir),
        (["d", "x"], .file "y")]⟩

/-- A layout in which the settings directory lives *inside* the
destination directory: base `/h`, destination `d`, settings
`/h/d/set` with source file `src`. -/
def fsSrcInsideDest : Fs :=
  ⟨[], [([], .dir), (["h"], .dir), (["h", "d"], .dir),
        (["h", "d", "set"], .dir), (["h", "d", "set", "src"], .file "x")]⟩

/-- A settings directory with an entry but no `manifest.toml`. -/
def fsNoManifest : Fs :=
  ⟨[], [([], .dir), (["d"], .dir), (["d", "x"], .file "y")]⟩

/-! ### Helper lemmas about the filesystem model -/

theorem lookupKey_filter_ne (l : List (List String × FNode)) (k k' : List String) :
    lookupKey (l.filter (fun e => !decide (e.1 = k))) k' =
      if k' = k then none else lookupKey l k' := by
  induction l with
  | nil => simp [lookupKey]
  | cons e rest ih =>
    rcases e with ⟨k0, n⟩
    by_cases h0 : k0 = k <;> by_cases h1 : k0 = k' <;> by_cases h2 : k' = k <;>
      simp_all [List.filter_cons, lookupKey]

theorem lookupKey_filter_pref (l : List (List String × FNode)) (k k' : List String) :
    lookupKey (l.filter (fun e => !(k.isPrefixOf e.1))) k' =
      if k.isPrefixOf k' then none else lookupKey l k' := by
  induction l with
  | nil => simp [lookupKey]
  | cons e rest ih =>
    rcases e with ⟨k0, n⟩
    cases h0 : k.isPrefixOf k0 <;> cases h2 : k.isPrefixOf k' <;> by_cases h1 : k0 = k' <;>
      simp_all [List.filter_cons, lookupKey]

theorem nodeAt_insertNode (fs : Fs) (k k' : List String) (n : FNode) :
    nodeAt (insertNode fs k n) k' = if k' = k then some n else nodeAt fs k' := by
  show lookupKey ((k, n) :: fs.entries.filter (fun e => decide (e.1 ≠ k))) k' = _
  simp only [ne_eq, decide_not]
  rw [lookupKey, lookupKey_filter_ne]
  by_cases h : k' = k
  · subst h; simp
  · simp [h, Ne.symm h, nodeAt]

theorem nodeAt_eraseNode (fs : Fs) (k k' : List String) :
    nodeAt (eraseNode fs k) k' = if k' = k then none else nodeAt fs k' := by
  show lookupKey (fs.entries.filter (fun e => decide (e.1 ≠ k))) k' = _
  simp only [ne_eq, decide_not]
  rw [lookupKey_filter_ne]
  rfl

theorem nodeAt_removeTree (fs : Fs) (k k' : List String) :
    nodeAt (removeTree fs k) k' = if k.isPrefixOf k' then none else nodeAt fs k' := by
  show lookupKey (fs.entries.filter (fun e => !(k.isPrefixOf e.1))) k' = _
  rw [lookupKey_filter_pref]
  rfl

theorem isPrefixOf_false_of_lt {k q : List String} (h : q.length < k.length) :
    k.isPrefixOf q = false := by
  cases hb : k.isPrefixOf q
  · rfl
  · have hp : k <+: q := List.isPrefixOf_iff_prefix.mp hb
    exact absurd hp.length_le (by omega)

theorem nodeAt_removeTree_of_short (fs : Fs) {k q : List String}
    (h : q.length < k.length) :
    nodeAt (removeTree fs k) q = nodeAt fs q := by
  rw [nodeAt_removeTree, isPrefixOf_false_of_lt h]
  simp

theorem nodeAt_eraseNode_of_ne (fs : Fs) {k q : List String} (h : q ≠ k) :
    nodeAt (eraseNode fs k) q = nodeAt fs q := by
  rw [nodeAt_eraseNode]
  simp [h]

theorem splitLast_append (pre : List String) (c : String) :
    splitLast (pre ++ [c]) = some (pre, c) := by
  induction pre with
  | nil => rfl
  | cons a rest ih =>
    cases rest with
    | nil => rfl
    | cons b bs =>
      show splitLast (a :: b :: (bs ++ [c])) = _
      rw [splitLast]
      simp only [List.cons_append] at ih
      rw [ih]

theorem splitLast_eq_some {l pre : List String} {c : String} :
    splitLast l = some (pre, c) ↔ l = pre ++ [c] := by
  constructor
  · intro h
    cases hl : l with
    | nil => rw [hl] at h; cases h
    | cons a rest =>
      subst hl
      have hne : (a :: rest) ≠ [] := by simp
      have h2 := splitLast_append ((a :: rest).dropLast) ((a :: rest).getLast hne)
      rw [List.dropLast_append_getLast hne] at h2
      rw [h2] at h
      cases h
      exact (List.dropLast_append_getLast hne).symm
  · intro h; subst h; exact splitLast_append pre c

theorem splitLast_eq_none {l : List String} : splitLast l = none ↔ l = [] := by
  cases l with
  | nil => simp [splitLast]
  | cons a rest =>
    constructor
    · intro h
      have hne : (a :: rest) ≠ [] := by simp
      have h2 := splitLast_append ((a :: rest).dropLast) ((a :: rest).getLast hne)
      rw [List.dropLast_append_getLast hne] at h2
      rw [h2] at h
      cases h
    · intro h; cases h

theorem walkDir_eq_some_append {fs : Fs} {acc rest r : List String}
    (h : walkDir fs acc rest = some r) : r = acc ++ rest := by
  induction rest generalizing acc with
  | nil => simp [walkDir] at h; simp [h]
  | cons c cs ih =>
    rw [walkDir] at h
    cases hn : nodeAt fs (acc ++ [c]) with
    | none => rw [hn] at h; cases h
    | some n =>
      cases n with
      | dir =>
        rw [hn] at h
        have := ih h
        simp [this]
      | file contents => rw [hn] at h; cases h
      | symlink t => rw [hn] at h; cases h

theorem walkDir_take_dir {fs : Fs} {acc rest r : List String}
    (h : walkDir fs acc rest = some r) :
    ∀ i, i < rest.length → nodeAt fs (acc ++ rest.take (i + 1)) = some FNode.dir := by
  induction rest generalizing acc with
  | nil => intro i hi; simp at hi
  | cons c cs ih =>
    intro i hi
    rw [walkDir] at h
    cases hn : nodeAt fs (acc ++ [c]) with
    | none => rw [hn] at h; cases h
    | some n =>
      cases n with
      | dir =>
        rw [hn] at h
        cases i with
        | zero => simpa using hn
        | succ j =>
          have hj : j < cs.length := by simpa using hi
          have := ih h j hj
          simpa [List.append_assoc] using this
      | file contents => rw [hn] at h; cases h
      | symlink t => rw [hn] at h; cases h

theorem walkDir_congr {fs fs' : Fs} {acc rest : List String}
    (h : ∀ q : List String, q.length ≤ acc.length + rest.length →
      nodeAt fs' q = nodeAt fs q) :
    walkDir fs' acc rest = walkDir fs acc rest := by
  induction rest generalizing acc with
  | nil => simp [walkDir]
  | cons c cs ih =>
    rw [walkDir, walkDir]
    have hk : nodeAt fs' (acc ++ [c]) = nodeAt fs (acc ++ [c]) := by
      apply h
      simp only [List.length_append, List.length_cons, List.length_nil]
      omega
    rw [hk]
    cases hn : nodeAt fs (acc ++ [c]) with
    | none => rfl
    | some n =>
      cases n with
      | dir =>
        apply ih
        intro q hq
        apply h
        simp only [List.length_append, List.length_cons, List.length_nil] at hq ⊢
        omega
      | file contents => rfl
      | symlink t => rfl

theorem mkdirs_of_dirs {fs : Fs} {acc rest : List String}
    (h : ∀ i, i < rest.length → nodeAt fs (acc ++ rest.take (i + 1)) = some FNode.dir) :
    mkdirs fs acc rest = .ok fs := by
  induction rest generalizing acc with
  | nil => rfl
  | cons c cs ih =>
    rw [mkdirs]
    have h0 : nodeAt fs (acc ++ [c]) = some FNode.dir := by simpa using h 0 (by simp)
    rw [h0]
    apply ih
    intro i hi
    have := h (i + 1) (by simpa using Nat.succ_lt_succ hi)
    simpa [List.append_assoc] using this

/-! ### Lemmas about the installer step and loop -/

theorem parent_eq_none {p : RPath} : parent p = none ↔ p.comps = [] := by
  cases hp : p.comps with
  | nil => simp [parent, hp]
  | cons a rest => simp [parent, hp]

theorem processItem_of_miss {fs : Fs} {b s : RPath} {item : ManifestItem}
    (h : pathExists fs (rjoin s (parsePath item.source)) = false) :
    processItem fs b s item = (.ok true, fs) := by
  unfold processItem
  rw [if_pos h]

theorem processItem_skip {fs : Fs} {b s : RPath} {item : ManifestItem}
    (hsrc : pathExists fs (rjoin s (parsePath item.source)) = true)
    (hdst : pathExists fs (rjoin b (parsePath item.destination)) = true)
    (hforce : item.force = false) :
    processItem fs b s item = (.ok false, fs) := by
  unfold processItem
  rw [if_neg (by simp [hsrc])]
  rw [if_pos (by simp [hdst, hforce])]

theorem processItem_ok_not_miss {fs fs' : Fs} {b s : RPath} {item : ManifestItem} {m : Bool}
    (hsrc : pathExists fs (rjoin s (parsePath item.source)) = true)
    (h : processItem fs b s item = (.ok m, fs')) : m = false := by
  unfold processItem at h
  rw [if_neg (by simp [hsrc])] at h
  dsimp only at h
  split at h
  · cases h; rfl
  · split at h
    · simp at h
    · rename_i fs1 heq
      split at h
      · simp at h
      · rename_i par hpar
        split at h
        · simp at h
        · rename_i fs2 heq2
          split at h
          · simp at h
          · rename_i orig hcan
            split at h
            · simp at h
            · cases h; rfl

theorem removeDirAll_not_panicked {fs : Fs} {p : RPath} {e : AyarlaErr}
    (h : removeDirAll fs p = .error e) : e.isPanicked = false := by
  unfold removeDirAll at h
  split at h
  · split at h
    · cases h
    · cases h; rfl
  · cases h; rfl

theorem removeFile_not_panicked {fs : Fs} {p : RPath} {e : AyarlaErr}
    (h : removeFile fs p = .error e) : e.isPanicked = false := by
  unfold removeFile at h
  split at h
  · split at h
    · cases h
    · cases h
    · cases h; rfl
  · cases h; rfl

theorem mkdirs_not_panicked {fs : Fs} {acc rest : List String} {e : AyarlaErr}
    (h : mkdirs fs acc rest = .error e) : e.isPanicked = false := by
  induction rest generalizing fs acc with
  | nil => cases h
  | cons c cs ih =>
    rw [mkdirs] at h
    split at h
    · exact ih h
    · exact ih h
    · cases h; rfl

theorem createDirAll_not_panicked {fs : Fs} {p : RPath} {e : AyarlaErr}
    (h : createDirAll fs p = .error e) : e.isPanicked = false := by
  unfold createDirAll at h
  split at h
  · cases h
  · exact mkdirs_not_panicked h

theorem symlinkOp_not_panicked {fs : Fs} {t : List String} {p : RPath} {e : AyarlaErr}
    (h : symlinkOp fs t p = .error e) : e.isPanicked = false := by
  unfold symlinkOp at h
  split at h
  · split at h
    · cases h; rfl
    · split at h
      · cases h; rfl
      · cases h
  · cases h; rfl

theorem processItem_error_not_panicked {fs fs' : Fs} {b s : RPath} {item : ManifestItem}
    {e : AyarlaErr}
    (hd : (rjoin b (parsePath item.destination)).comps ≠ [])
    (h : processItem fs b s item = (.error e, fs')) : e.isPanicked = false := by
  unfold processItem at h
  dsimp only at h
  split at h
  · simp at h
  · split at h
    · simp at h
    · split at h
      · rename_i e1 heq
        cases h
        split at heq
        · split at heq
          · exact removeDirAll_not_panicked heq
          · exact removeFile_not_panicked heq
        · cases heq
      · rename_i fs1 heq
        split at h
        · rename_i hpar
          exact absurd (parent_eq_none.mp hpar) hd
        · rename_i par hpar
          split at h
          · rename_i e2 heq2
            cases h
            split at heq2
            · cases heq2
            · exact createDirAll_not_panicked heq2
          · rename_i fs2 heq2
            split at h
            · cases h; rfl
            · rename_i orig hcan
              split at h
              · rename_i e3 heq3
                cases h
                exact symlinkOp_not_panicked heq3
              · simp at h

set_option maxHeartbeats 1600000 in
theorem lets_go_loop_ok_warn {b s : RPath} :
    ∀ {items : List ManifestItem} {fs fs' : Fs} {st st' : AyarlaStatus},
    lets_go_loop b s fs st items = (.ok st', fs') →
    (st' = AyarlaStatus.Warn ↔
      st = AyarlaStatus.Warn ∨ anyMiss b s fs items = true) := by
  intro items
  induction items with
  | nil =>
    intro fs fs' st st' h
    rw [lets_go_loop] at h
    cases h
    have ha : anyMiss b s fs [] = false := rfl
    rw [ha]
    simp
  | cons item rest ih =>
    intro fs fs' st st' h
    rw [lets_go_loop] at h
    cases hpi : processItem fs b s item with
    | mk r fs1 =>
      cases r with
      | error e => rw [hpi] at h; simp at h
      | ok missed =>
        rw [hpi] at h
        dsimp only at h
        cases hmiss : pathExists fs (rjoin s (parsePath item.source)) with
        | false =>
          have hfix : processItem fs b s item = (.ok true, fs) :=
            processItem_of_miss hmiss
          rw [hpi] at hfix
          cases hfix
          rw [if_pos rfl] at h
          rw [ih h]
          have ha : anyMiss b s fs (item :: rest) = true := by
            rw [anyMiss, if_pos hmiss]
          rw [ha]
          simp
        | true =>
          have hm0 : missed = false :=
            processItem_ok_not_miss hmiss hpi
          subst hm0
          rw [if_neg (by simp)] at h
          rw [ih h]
          have ha : anyMiss b s fs (item :: rest) = anyMiss b s fs1 rest := by
            rw [anyMiss, if_neg (by simp [hmiss]), hpi]
          rw [ha]

theorem lets_go_loop_all_miss {b s : RPath} :
    ∀ {items : List ManifestItem} {fs : Fs} {st : AyarlaStatus},
    items ≠ [] →
    (∀ item ∈ items, pathExists fs (rjoin s (parsePath item.source)) = false) →
    lets_go_loop b s fs st items = (.ok AyarlaStatus.Warn, fs) := by
  intro items
  induction items with
  | nil =>
    intro fs st hne _
    exact absurd rfl hne
  | cons item rest ih =>
    intro fs st _ hall
    rw [lets_go_loop, processItem_of_miss (hall item (by simp))]
    dsimp only
    rw [if_pos rfl]
    cases rest with
    | nil => rw [lets_go_loop]
    | cons i2 r2 =>
      exact ih (by simp) (fun it hit => hall it (by simp [hit]))

theorem lets_go_loop_skip_all {b s : RPath} :
    ∀ {items : List ManifestItem} {fs : Fs} {st : AyarlaStatus},
    (∀ item ∈ items, item.force = false) →
    (∀ item ∈ items, pathExists fs (rjoin b (parsePath item.destination)) = true) →
    ∃ st', lets_go_loop b s fs st items = (.ok st', fs) := by
  intro items
  induction items with
  | nil =>
    intro fs st _ _
    exact ⟨st, rfl⟩
  | cons item rest ih =>
    intro fs st hforce hdest
    rw [lets_go_loop]
    cases hmiss : pathExists fs (rjoin s (parsePath item.source)) with
    | false =>
      rw [processItem_of_miss hmiss]
      dsimp only
      rw [if_pos rfl]
      exact ih (fun it hit => hforce it (by simp [hit]))
        (fun it hit => hdest it (by simp [hit]))
    | true =>
      rw [processItem_skip hmiss (hdest item (by simp)) (hforce item (by simp))]
      dsimp only
      rw [if_neg (by simp)]
      exact ih (fun it hit => hforce it (by simp [hit]))
        (fun it hit => hdest it (by simp [hit]))

theorem lets_go_loop_no_panic {b s : RPath} :
    ∀ {items : List ManifestItem} {fs fs' : Fs} {st : AyarlaStatus} {e : AyarlaErr},
    (∀ item ∈ items, (rjoin b (parsePath item.destination)).comps ≠ []) →
    lets_go_loop b s fs st items = (.error e, fs') →
    e.isPanicked = false := by
  intro items
  induction items with
  | nil =>
    intro fs fs' st e _ h
    rw [lets_go_loop] at h
    simp at h
  | cons item rest ih =>
    intro fs fs' st e hall h
    rw [lets_go_loop] at h
    cases hpi : processItem fs b s item with
    | mk r fs1 =>
      cases r with
      | error e1 =>
        rw [hpi] at h
        cases h
        exact processItem_error_not_panicked (hall item (by simp)) hpi
      | ok missed =>
        rw [hpi] at h
        exact ih (fun it hit => hall it (by simp [hit])) h

/-! ### Claims about the Installer -/

/-- **C1**: for every base directory, settings directory and manifest, the
Installer (`lets_go`) returns `Warn` if and only if at least one manifest
item's computed source path (settings dir joined with the item's source)
does not exist at the time that item is processed (`anyMiss` replays
exactly that check); moreover a missing source never raises an error and
never stops processing: the run on `item :: rest` with a missing source
equals the run on `rest` with the status degraded to `Warn`.  In
particular, when no item has a missing source the aggregate status is
`Ok`. -/
theorem C1_warn_iff_missing_source :
    (∀ (fs fs' : Fs) (base settings : RPath) (manifest : Manifest) (st : AyarlaStatus),
      lets_go fs base settings manifest = (.ok st, fs') →
      (st = AyarlaStatus.Warn ↔
        anyMiss base settings fs manifest.manifest_items = true)) ∧
    (∀ (fs : Fs) (base settings : RPath) (st : AyarlaStatus) (item : ManifestItem)
      (rest : List ManifestItem),
      pathExists fs (rjoin settings (parsePath item.source)) = false →
      lets_go_loop base settings fs st (item :: rest) =
        lets_go_loop base settings fs AyarlaStatus.Warn rest) := by
  constructor
  · intro fs fs' base settings manifest st h
    have hw := lets_go_loop_ok_warn
      (show lets_go_loop base settings fs AyarlaStatus.Ok manifest.manifest_items =
        (.ok st, fs') from h)
    simpa using hw
  · intro fs base settings st item rest hmiss
    rw [lets_go_loop, processItem_of_miss hmiss]
    dsimp only
    rw [if_pos rfl]

/-- Witness for C1: the repository's own test scenario (no sources
present) returns `Warn`, and the replay agrees. -/
theorem C1_warn_iff_missing_source_witness :
    (AyarlaStatus.Warn = AyarlaStatus.Warn ↔
      anyMiss ⟨true, ["home"]⟩ ⟨true, ["set"]⟩ fsMissingSources
        manTwoItems.manifest_items = true) :=
  C1_warn_iff_missing_source.1 fsMissingSources fsMissingSources
    ⟨true, ["home"]⟩ ⟨true, ["set"]⟩ manTwoItems AyarlaStatus.Warn rfl

/-- **C4**: for every manifest whose items all have `force = false`, a run
in a state where every item's destination already exists performs no
filesystem mutation (the returned state is the input state) and returns
without error. -/
theorem C4_second_run_noop :
    ∀ (fs : Fs) (base settings : RPath) (manifest : Manifest),
      (∀ item ∈ manifest.manifest_items, item.force = false) →
      (∀ item ∈ manifest.manifest_items,
        pathExists fs (rjoin base (parsePath item.destination)) = true) →
      ∃ st, lets_go fs base settings manifest = (.ok st, fs) := by
  intro fs base settings manifest hf hd
  exact lets_go_loop_skip_all hf hd

/-- Witness for C4: in the state left by a first full install, a second
run is a no-op and returns without error. -/
theorem C4_second_run_noop_witness :
    ∃ st, lets_go fsAfterInstall ⟨true, ["home"]⟩ ⟨true, ["set"]⟩ manTwoItems =
      (.ok st, fsAfterInstall) :=
  C4_second_run_noop fsAfterInstall ⟨true, ["home"]⟩ ⟨true, ["set"]⟩ manTwoItems
    (by decide) (by decide)

/-- **C5 counterexample**: the claim quantifies over all manifests whose
items all lack sources, *including the empty manifest*.  The empty
manifest vacuously satisfies the premise, yet the run returns `Ok`, not
`Warn`. -/
theorem C5_counterexample :
    (∀ item ∈ (Manifest.mk []).manifest_items,
      pathExists fsMissingSources (rjoin ⟨true, ["set"]⟩ (parsePath item.source)) = false) ∧
    lets_go fsMissingSources ⟨true, ["home"]⟩ ⟨true, ["set"]⟩ (Manifest.mk []) =
      (.ok AyarlaStatus.Ok, fsMissingSources) := by
  constructor
  · intro item h
    simp at h
  · rfl

/-- **C5 (amended)**: for every *nonempty* manifest in which every item's
source is absent from the settings directory, the run produces `Warn` and
performs zero filesystem mutations (the state is returned unchanged). -/
theorem C5_warn_when_all_sources_missing :
    ∀ (fs : Fs) (base settings : RPath) (manifest : Manifest),
      manifest.manifest_items ≠ [] →
      (∀ item ∈ manifest.manifest_items,
        pathExists fs (rjoin settings (parsePath item.source)) = false) →
      lets_go fs base settings manifest = (.ok AyarlaStatus.Warn, fs) :=
  fun _ _ _ _ hne hall => lets_go_loop_all_miss hne hall

/-- Witness for the amended C5: two items, both sources absent. -/
theorem C5_warn_when_all_sources_missing_witness :
    lets_go fsMissingSources ⟨true, ["home"]⟩ ⟨true, ["set"]⟩ manTwoItems =
      (.ok AyarlaStatus.Warn, fsMissingSources) :=
  C5_warn_when_all_sources_missing fsMissingSources ⟨true, ["home"]⟩ ⟨true, ["set"]⟩
    manTwoItems (by decide) (by decide)

/-- **C10 counterexample**: with an empty base directory string and an
item whose destination is the empty string, the item reaches the
link-creation phase (its source exists and the destination does not), and
`destination_path.parent()` is `None`: the unwrap panics. -/
theorem C10_counterexample :
    lets_go fsPanicState (parsePath "") ⟨true, ["s"]⟩
      (Manifest.mk [⟨"src", "", false⟩]) =
      (.error (.panicked "called unwrap on a None value"), fsPanicState) := by
  rfl

/-- **C10 (amended)**: for every run in which each item's joined
destination path has at least one component (is neither the empty path
nor the filesystem root), the `parent()` unwrap never panics: any error
the Installer returns is an ordinary I/O error, not a panic. -/
theorem C10_parent_unwrap_safe :
    ∀ (fs fs' : Fs) (base settings : RPath) (manifest : Manifest) (e : AyarlaErr),
      (∀ item ∈ manifest.manifest_items,
        (rjoin base (parsePath item.destination)).comps ≠ []) →
      lets_go fs base settings manifest = (.error e, fs') →
      e.isPanicked = false :=
  fun _ _ _ _ _ _ hall h => lets_go_loop_no_panic hall h

/-- Witness for the amended C10: a failing run (dangling link at the
destination makes the final symlink call fail) whose error is not a
panic. -/
theorem C10_parent_unwrap_safe_witness :
    AyarlaErr.isPanicked (AyarlaErr.ioError "symlink: file exists") = false :=
  C10_parent_unwrap_safe fsDangling fsDangling ⟨true, ["h"]⟩ ⟨true, ["s"]⟩
    (Manifest.mk [⟨"a", "x", false⟩]) (AyarlaErr.ioError "symlink: file exists")
    (by decide) rfl

/-! ### Lemmas about the Preflight Validator -/

theorem readDirOp_error_shape {fs : Fs} {p : RPath} {e : AyarlaErr}
    (h : readDirOp fs p = .error e) : e = .ioError "read_dir" := by
  unfold readDirOp at h
  split at h
  · split at h
    all_goals first | (cases h; rfl) | cases h
  · cases h; rfl

theorem readToString_error_shape {fs : Fs} {p : RPath} {e : AyarlaErr}
    (h : readToString fs p = .error e) : e = .ioError "read_to_string" := by
  unfold readToString at h
  split at h
  · cases h
  · cases h; rfl

theorem red_manifesto_error_shape {c : String} {e : AyarlaErr}
    (h : red_manifesto c = .error e) : ∃ msg, e = .manifestParse msg := by
  unfold red_manifesto at h
  split at h
  · cases h; exact ⟨_, rfl⟩
  · cases h; exact ⟨_, rfl⟩
  · split at h
    · cases h; exact ⟨_, rfl⟩
    · cases h

theorem are_we_fst (fs : Fs) (s : String) :
    (are_we_ready_for_takeoff fs s).1 =
      (if pathExists fs (parsePath s) = false then .error (.notFound s)
       else if isDir fs (parsePath s) = false then .error (.notADirectory s)
       else
         match readDirOp fs (parsePath s) with
         | .error e => .error e
         | .ok l =>
           if l.isEmpty then .error (.emptyDirectory s)
           else if !(l.contains MANIFEST_FILE_NAME) then .error (.manifestMissing s)
           else if l.length = 1 then .error (.nothingToInstall s)
           else
             match readToString fs (rjoin (parsePath s) (parsePath MANIFEST_FILE_NAME)) with
             | .error e => .error e
             | .ok c =>
               if c = "" then .error (.emptyManifest s)
               else .ok (parsePath s, c)) := by
  rw [are_we_ready_for_takeoff]
  repeat' split
  all_goals rfl

theorem checks_fst (fs : Fs) (s : String) :
    (checks fs s).1 =
      (match (are_we_ready_for_takeoff fs s).1 with
       | .error e => .error e
       | .ok pc =>
         match red_manifesto pc.2 with
         | .error e => .error e
         | .ok m => .ok (pc.1, m)) := by
  rw [checks]
  cases hw : are_we_ready_for_takeoff fs s with
  | mk r fs1 =>
    cases r with
    | error e => rfl
    | ok pc =>
      rcases pc with ⟨p, c⟩
      dsimp only
      cases red_manifesto c <;> rfl

theorem preflight_chars_a (fs : Fs) (s : String) (l : List String)
    (hl : readDirOp fs (parsePath s) = .ok l) :
    ((checks fs s).1 = .error (.notFound s) ↔ pathExists fs (parsePath s) = false) ∧
    ((checks fs s).1 = .error (.notADirectory s) ↔
      (pathExists fs (parsePath s) = true ∧ isDir fs (parsePath s) = false)) ∧
    ((checks fs s).1 = .error (.emptyDirectory s) ↔
      (pathExists fs (parsePath s) = true ∧ isDir fs (parsePath s) = true ∧ l = [])) ∧
    ((checks fs s).1 = .error (.manifestMissing s) ↔
      (pathExists fs (parsePath s) = true ∧ isDir fs (parsePath s) = true ∧ l ≠ [] ∧
        l.contains MANIFEST_FILE_NAME = false)) ∧
    ((checks fs s).1 = .error (.nothingToInstall s) ↔
      (pathExists fs (parsePath s) = true ∧ isDir fs (parsePath s) = true ∧ l ≠ [] ∧
        l.contains MANIFEST_FILE_NAME = true ∧ l.length = 1)) := by
  rw [checks_fst, are_we_fst, hl]
  by_cases hE : pathExists fs (parsePath s) = false
  · rw [if_pos hE]
    refine ⟨?_, ?_, ?_, ?_, ?_⟩ <;> simp_all
  · have hE' : pathExists fs (parsePath s) = true := by
      revert hE
      cases pathExists fs (parsePath s) <;> simp
    rw [if_neg hE]
    by_cases hD : isDir fs (parsePath s) = false
    · rw [if_pos hD]
      refine ⟨?_, ?_, ?_, ?_, ?_⟩ <;> simp_all
    · have hD' : isDir fs (parsePath s) = true := by
        revert hD
        cases isDir fs (parsePath s) <;> simp
      rw [if_neg hD]
      dsimp only
      by_cases hEm : l.isEmpty = true
      · have hnil : l = [] := by simpa using hEm
        rw [if_pos hEm]
        refine ⟨?_, ?_, ?_, ?_, ?_⟩ <;> simp_all
      · have hne : l ≠ [] := by simpa using hEm
        rw [if_neg hEm]
        by_cases hCon : l.contains MANIFEST_FILE_NAME = true
        · rw [if_neg (by rw [hCon]; decide)]
          by_cases hLen : l.length = 1
          · rw [if_pos hLen]
            refine ⟨?_, ?_, ?_, ?_, ?_⟩ <;> simp_all
          · rw [if_neg hLen]
            cases hC : readToString fs (rjoin (parsePath s) (parsePath MANIFEST_FILE_NAME)) with
            | error e =>
              have he := readToString_error_shape hC
              subst he
              refine ⟨?_, ?_, ?_, ?_, ?_⟩ <;> simp_all
            | ok c =>
              dsimp only
              by_cases hCe : c = ""
              · rw [if_pos hCe]
                refine ⟨?_, ?_, ?_, ?_, ?_⟩ <;> simp_all
              · rw [if_neg hCe]
                cases hm : red_manifesto c with
                | error e =>
                  obtain ⟨msg, hmsg⟩ := red_manifesto_error_shape hm
                  subst hmsg
                  refine ⟨?_, ?_, ?_, ?_, ?_⟩ <;> simp_all
                | ok m =>
                  refine ⟨?_, ?_, ?_, ?_, ?_⟩ <;> simp_all
        · have hCon' : l.contains MANIFEST_FILE_NAME = false := by
            revert hCon
            cases l.contains MANIFEST_FILE_NAME <;> simp
          rw [if_pos (by rw [hCon']; rfl)]
          refine ⟨?_, ?_, ?_, ?_, ?_⟩ <;> simp_all

theorem preflight_chars_b (fs : Fs) (s : String) (l : List String) (c : String)
    (hl : readDirOp fs (parsePath s) = .ok l)
    (hc : readToString fs (rjoin (parsePath s) (parsePath MANIFEST_FILE_NAME)) = .ok c) :
    ((checks fs s).1 = .error (.emptyManifest s) ↔
      (pathExists fs (parsePath s) = true ∧ isDir fs (parsePath s) = true ∧ l ≠ [] ∧
        l.contains MANIFEST_FILE_NAME = true ∧ l.length ≠ 1 ∧ c = "")) ∧
    (∀ e, (checks fs s).1 = .error (.manifestParse e) ↔
      (pathExists fs (parsePath s) = true ∧ isDir fs (parsePath s) = true ∧ l ≠ [] ∧
        l.contains MANIFEST_FILE_NAME = true ∧ l.length ≠ 1 ∧ c ≠ "" ∧
        red_manifesto c = .error (.manifestParse e))) ∧
    (∀ m, (checks fs s).1 = .ok m ↔
      (pathExists fs (parsePath s) = true ∧ isDir fs (parsePath s) = true ∧ l ≠ [] ∧
        l.contains MANIFEST_FILE_NAME = true ∧ l.length ≠ 1 ∧ c ≠ "" ∧
        red_manifesto c = .ok m.2 ∧ m.1 = parsePath s)) := by
  rw [checks_fst, are_we_fst, hl, hc]
  by_cases hE : pathExists fs (parsePath s) = false
  · rw [if_pos hE]
    refine ⟨?_, ?_, ?_⟩ <;> intros <;> simp_all
  · have hE' : pathExists fs (parsePath s) = true := by
      revert hE
      cases pathExists fs (parsePath s) <;> simp
    rw [if_neg hE]
    by_cases hD : isDir fs (parsePath s) = false
    · rw [if_pos hD]
      refine ⟨?_, ?_, ?_⟩ <;> intros <;> simp_all
    · have hD' : isDir fs (parsePath s) = true := by
        revert hD
        cases isDir fs (parsePath s) <;> simp
      rw [if_neg hD]
      dsimp only
      by_cases hEm : l.isEmpty = true
      · have hnil : l = [] := by simpa using hEm
        rw [if_pos hEm]
        refine ⟨?_, ?_, ?_⟩ <;> intros <;> simp_all
      · have hne : l ≠ [] := by simpa using hEm
        rw [if_neg hEm]
        by_cases hCon : l.contains MANIFEST_FILE_NAME = true
        · rw [if_neg (by rw [hCon]; decide)]
          by_cases hLen : l.length = 1
          · rw [if_pos hLen]
            refine ⟨?_, ?_, ?_⟩ <;> intros <;> simp_all
          · rw [if_neg hLen]
            by_cases hCe : c = ""
            · rw [if_pos hCe]
              refine ⟨?_, ?_, ?_⟩ <;> intros <;> simp_all
            · rw [if_neg hCe]
              cases hm : red_manifesto c with
              | error e =>
                obtain ⟨msg, hmsg⟩ := red_manifesto_error_shape hm
                subst hmsg
                refine ⟨?_, ?_, ?_⟩ <;> intros <;> simp_all
              | ok m0 =>
                refine ⟨?_, ?_, ?_⟩
                · simp_all
                · intro e
                  simp_all
                · intro m
                  simp_all [Prod.ext_iff]
                  constructor
                  · rintro ⟨h1, h2⟩
                    exact ⟨h2, h1.symm⟩
                  · rintro ⟨h1, h2⟩
                    exact ⟨h2.symm, h1⟩
        · have hCon' : l.contains MANIFEST_FILE_NAME = false := by
            revert hCon
            cases l.contains MANIFEST_FILE_NAME <;> simp
          rw [if_pos (by rw [hCon']; rfl)]
          refine ⟨?_, ?_, ?_⟩ <;> intros <;> simp_all

theorem preflight_chars_front (fs : Fs) (s : String) :
    ((checks fs s).1 = .error (.notFound s) ↔ pathExists fs (parsePath s) = false) ∧
    ((checks fs s).1 = .error (.notADirectory s) ↔
      (pathExists fs (parsePath s) = true ∧ isDir fs (parsePath s) = false)) := by
  rw [checks_fst, are_we_fst]
  by_cases hE : pathExists fs (parsePath s) = false
  · rw [if_pos hE]
    refine ⟨?_, ?_⟩ <;> simp_all
  · have hE' : pathExists fs (parsePath s) = true := by
      revert hE
      cases pathExists fs (parsePath s) <;> simp
    rw [if_neg hE]
    by_cases hD : isDir fs (parsePath s) = false
    · rw [if_pos hD]
      refine ⟨?_, ?_⟩ <;> simp_all
    · have hD' : isDir fs (parsePath s) = true := by
        revert hD
        cases isDir fs (parsePath s) <;> simp
      rw [if_neg hD]
      cases hL : readDirOp fs (parsePath s) with
      | error e =>
        have he := readDirOp_error_shape hL
        subst he
        refine ⟨?_, ?_⟩ <;> simp_all
      | ok l =>
        dsimp only
        by_cases hEm : l.isEmpty = true
        · rw [if_pos hEm]
          refine ⟨?_, ?_⟩ <;> simp_all
        · rw [if_neg hEm]
          by_cases hCon : l.contains MANIFEST_FILE_NAME = true
          · rw [if_neg (by rw [hCon]; decide)]
            by_cases hLen : l.length = 1
            · rw [if_pos hLen]
              refine ⟨?_, ?_⟩ <;> simp_all
            · rw [if_neg hLen]
              cases hC : readToString fs (rjoin (parsePath s) (parsePath MANIFEST_FILE_NAME)) with
              | error e =>
                have he := readToString_error_shape hC
                subst he
                refine ⟨?_, ?_⟩ <;> simp_all
              | ok c =>
                dsimp only
                by_cases hCe : c = ""
                · rw [if_pos hCe]
                  refine ⟨?_, ?_⟩ <;> simp_all
                · rw [if_neg hCe]
                  cases hm : red_manifesto c with
                  | error e =>
                    obtain ⟨msg, hmsg⟩ := red_manifesto_error_shape hm
                    subst hmsg
                    refine ⟨?_, ?_⟩ <;> simp_all
                  | ok m =>
                    refine ⟨?_, ?_⟩ <;> simp_all
          · have hCon' : l.contains MANIFEST_FILE_NAME = false := by
              revert hCon
              cases l.contains MANIFEST_FILE_NAME <;> simp
            rw [if_pos (by rw [hCon']; rfl)]
            refine ⟨?_, ?_⟩ <;> simp_all

theorem are_we_snd (fs : Fs) (s : String) : (are_we_ready_for_takeoff fs s).2 = fs := by
  rw [are_we_ready_for_takeoff]
  repeat' split
  all_goals rfl

/-! ### Claims about the Preflight Validator -/

/-- **C2**: the Preflight Validator performs its seven checks in the
stated order, short-circuiting on the first failure: each of the seven
error values is returned exactly when every earlier check passes and its
own check fails (checks 6 and 7 presuppose the manifest file is readable
as text, as the spec's reading of "manifest text" does), and on success
it returns the candidate directory path paired with the parsed
`Manifest`. -/
theorem C2_checks_ordered :
    ∀ (fs : Fs) (s : String),
      ((checks fs s).1 = .error (.notFound s) ↔ pathExists fs (parsePath s) = false) ∧
      ((checks fs s).1 = .error (.notADirectory s) ↔
        (pathExists fs (parsePath s) = true ∧ isDir fs (parsePath s) = false)) ∧
      (∀ l, readDirOp fs (parsePath s) = .ok l →
        ((checks fs s).1 = .error (.emptyDirectory s) ↔
          (pathExists fs (parsePath s) = true ∧ isDir fs (parsePath s) = true ∧ l = [])) ∧
        ((checks fs s).1 = .error (.manifestMissing s) ↔
          (pathExists fs (parsePath s) = true ∧ isDir fs (parsePath s) = true ∧ l ≠ [] ∧
            l.contains MANIFEST_FILE_NAME = false)) ∧
        ((checks fs s).1 = .error (.nothingToInstall s) ↔
          (pathExists fs (parsePath s) = true ∧ isDir fs (parsePath s) = true ∧ l ≠ [] ∧
            l.contains MANIFEST_FILE_NAME = true ∧ l.length = 1)) ∧
        (∀ c, readToString fs (rjoin (parsePath s) (parsePath MANIFEST_FILE_NAME)) = .ok c →
          ((checks fs s).1 = .error (.emptyManifest s) ↔
            (pathExists fs (parsePath s) = true ∧ isDir fs (parsePath s) = true ∧ l ≠ [] ∧
              l.contains MANIFEST_FILE_NAME = true ∧ l.length ≠ 1 ∧ c = "")) ∧
          (∀ e, (checks fs s).1 = .error (.manifestParse e) ↔
            (pathExists fs (parsePath s) = true ∧ isDir fs (parsePath s) = true ∧ l ≠ [] ∧
              l.contains MANIFEST_FILE_NAME = true ∧ l.length ≠ 1 ∧ c ≠ "" ∧
              red_manifesto c = .error (.manifestParse e))) ∧
          (∀ m, (checks fs s).1 = .ok m ↔
            (pathExists fs (parsePath s) = true ∧ isDir fs (parsePath s) = true ∧ l ≠ [] ∧
              l.contains MANIFEST_FILE_NAME = true ∧ l.length ≠ 1 ∧ c ≠ "" ∧
              red_manifesto c = .ok m.2 ∧ m.1 = parsePath s)))) := by
  intro fs s
  refine ⟨(preflight_chars_front fs s).1, (preflight_chars_front fs s).2, ?_⟩
  intro l hl
  obtain ⟨_, _, h3, h4, h5⟩ := preflight_chars_a fs s l hl
  refine ⟨h3, h4, h5, ?_⟩
  intro c hc
  exact preflight_chars_b fs s l c hl hc

/-- Witness for C2: on a valid settings directory the success clause
yields the concrete validated pair. -/
theorem C2_checks_ordered_witness :
    (checks fsHappy "/s").1 = .ok (⟨true, ["s"]⟩, ⟨[⟨"a", "b", false⟩]⟩) :=
  ((((C2_checks_ordered fsHappy "/s").2.2 ["manifest.toml", "a"] rfl).2.2.2
      "[[manifest_items]]\nsource = \"a\"\ndestination = \"b\"\n" rfl).2.2
      (⟨true, ["s"]⟩, ⟨[⟨"a", "b", false⟩]⟩)).mpr
    ⟨rfl, rfl, by decide, by decide, by decide, by decide, rfl, rfl⟩

/-- **C7 counterexample**: the validator succeeds on the relative
candidate path `rel` and returns that relative path verbatim — not a
resolved absolute path. -/
theorem C7_counterexample :
    (checks fsRelative "rel").1 =
      .ok (⟨false, ["rel"]⟩, ⟨[⟨"a", "b", false⟩]⟩) ∧
    (⟨false, ["rel"]⟩ : RPath).abs = false :=
  ⟨rfl, rfl⟩

/-- **C7 (amended)**: on success the Preflight Validator returns the
candidate directory path exactly as given — unresolved: a relative input
yields the same relative path, an absolute input that same absolute
path. -/
theorem C7_returns_candidate_verbatim :
    ∀ (fs : Fs) (s : String) (r : RPath × Manifest),
      (checks fs s).1 = .ok r → r.1 = parsePath s := by
  intro fs s r h
  rw [checks_fst, are_we_fst] at h
  split at h
  · cases h
  · rename_i pc heq
    split at h
    · cases h
    · cases h
      split at heq
      · cases heq
      · split at heq
        · cases heq
        · split at heq
          · cases heq
          · split at heq
            · cases heq
            · split at heq
              · cases heq
              · split at heq
                · cases heq
                · split at heq
                  · cases heq
                  · split at heq
                    · cases heq
                    · cases heq
                      rfl

/-- Witness for the amended C7: the returned path for the relative input
`rel` is `parsePath "rel"` itself. -/
theorem C7_returns_candidate_verbatim_witness :
    ((⟨false, ["rel"]⟩ : RPath), (⟨[⟨"a", "b", false⟩]⟩ : Manifest)).1 = parsePath "rel" :=
  C7_returns_candidate_verbatim fsRelative "rel"
    (⟨false, ["rel"]⟩, ⟨[⟨"a", "b", false⟩]⟩) rfl

/-- **C8 counterexample**: a settings directory whose `manifest.toml`
entry is a *directory* passes check 4 (the check matches the entry name
only), so the validator does not fail with `ManifestMissing`; it fails
later, with the read error for the manifest file. -/
theorem C8_counterexample :
    (checks fsManifestDir "/d").1 = .error (.ioError "read_to_string") ∧
    (checks fsManifestDir "/d").1 ≠ .error (.manifestMissing "/d") :=
  ⟨rfl, by decide⟩

/-- **C8 (amended)**: check 4 fails with `ManifestMissing` exactly when
checks 1–3 pass and the directory listing contains no entry named exactly
`manifest.toml` — an entry of *any* node type with that name satisfies
the check. -/
theorem C8_manifest_missing_name_only :
    ∀ (fs : Fs) (s : String) (l : List String),
      readDirOp fs (parsePath s) = .ok l →
      ((checks fs s).1 = .error (.manifestMissing s) ↔
        (pathExists fs (parsePath s) = true ∧ isDir fs (parsePath s) = true ∧ l ≠ [] ∧
          l.contains MANIFEST_FILE_NAME = false)) :=
  fun fs s l hl => (preflight_chars_a fs s l hl).2.2.2.1

/-- Witness for the amended C8: a directory with one entry and no
`manifest.toml` fails with `ManifestMissing`. -/
theorem C8_manifest_missing_name_only_witness :
    (checks fsNoManifest "/d").1 = .error (.manifestMissing "/d") :=
  (C8_manifest_missing_name_only fsNoManifest "/d" ["x"] rfl).mpr
    ⟨rfl, rfl, by decide, by decide⟩

/-- **C9**: the Preflight Validator performs no filesystem mutation: on
every input — on success and on every error, a manifest parse failure
included — the filesystem state it returns is exactly the input state. -/
theorem C9_validator_no_mutation :
    ∀ (fs : Fs) (s : String), (checks fs s).2 = fs := by
  intro fs s
  rw [checks]
  cases hw : are_we_ready_for_takeoff fs s with
  | mk r fs1 =>
    have hfs : fs1 = fs := by
      have h2 := are_we_snd fs s
      rw [hw] at h2
      exact h2
    subst hfs
    cases r with
    | error e => rfl
    | ok pc =>
      rcases pc with ⟨p, c⟩
      dsimp only
      cases red_manifesto c <;> rfl

/-! ### Lemmas about manifest deserialization -/

theorem deserializeItem_ok {t : TomlTable} {it : ManifestItem}
    (h : deserializeItem t = .ok it) :
    t.lookup "source" = some (.str it.source) ∧
    t.lookup "destination" = some (.str it.destination) ∧
    (t.lookup "force" = none → it.force = false) := by
  unfold deserializeItem at h
  split at h
  · rename_i src hs
    split at h
    · rename_i dst hd
      split at h
      · rename_i b hf
        cases h
        refine ⟨hs, hd, fun hn => ?_⟩
        rw [hf] at hn
        cases hn
      · rename_i hf
        cases h
        exact ⟨hs, hd, fun _ => rfl⟩
      · rename_i v hf
        cases h
    · rename_i b hd
      cases h
    · rename_i hd
      cases h
  · rename_i b hs
    cases h
  · rename_i hs
    cases h

theorem deserializeItems_ok_rel : ∀ {ts : List TomlTable} {its : List ManifestItem},
    deserializeItems ts = .ok its →
    its.length = ts.length ∧
    ∀ i (hti : i < ts.length) (hmi : i < its.length),
      (ts.get ⟨i, hti⟩).lookup "source" =
        some (.str ((its.get ⟨i, hmi⟩).source)) ∧
      (ts.get ⟨i, hti⟩).lookup "destination" =
        some (.str ((its.get ⟨i, hmi⟩).destination)) ∧
      ((ts.get ⟨i, hti⟩).lookup "force" = none →
        (its.get ⟨i, hmi⟩).force = false) := by
  intro ts
  induction ts with
  | nil =>
    intro its h
    rw [deserializeItems] at h
    cases h
    exact ⟨rfl, fun i hti => absurd hti (by simp)⟩
  | cons t ts ih =>
    intro its h
    rw [deserializeItems] at h
    cases hdi : deserializeItem t with
    | error e => rw [hdi] at h; cases h
    | ok it =>
      rw [hdi] at h
      cases hds : deserializeItems ts with
      | error e => rw [hds] at h; cases h
      | ok its0 =>
        rw [hds] at h
        cases h
        obtain ⟨hlen, hrel⟩ := ih hds
        obtain ⟨h1, h2, h3⟩ := deserializeItem_ok hdi
        constructor
        · simp [hlen]
        · intro i hti hmi
          cases i with
          | zero => exact ⟨h1, h2, h3⟩
          | succ j =>
            have hj1 : j < ts.length := by simpa using hti
            have hj2 : j < its0.length := by simpa using hmi
            simpa using hrel j hj1 hj2

theorem deserializeItems_missing : ∀ {ts : List TomlTable},
    (∃ t ∈ ts, t.lookup "source" = none ∨ t.lookup "destination" = none) →
    ∃ msg, deserializeItems ts = .error msg := by
  intro ts
  induction ts with
  | nil =>
    rintro ⟨t, ht, _⟩
    cases ht
  | cons t0 ts ih =>
    rintro ⟨t, ht, hmiss⟩
    rw [deserializeItems]
    cases hdi : deserializeItem t0 with
    | error e => exact ⟨e, rfl⟩
    | ok it =>
      rcases List.mem_cons.mp ht with rfl | hmem
      · obtain ⟨h1, h2, _⟩ := deserializeItem_ok hdi
        rcases hmiss with hm | hm
        · rw [hm] at h1; cases h1
        · rw [hm] at h2; cases h2
      · obtain ⟨msg, hmsg⟩ := ih ⟨t, hmem, hmiss⟩
        rw [hmsg]
        exact ⟨msg, rfl⟩

theorem deserializeItem_no_force {t : TomlTable} {src dst : String}
    (hs : t.lookup "source" = some (.str src))
    (hd : t.lookup "destination" = some (.str dst))
    (hf : t.lookup "force" = none) :
    deserializeItem t = .ok ⟨src, dst, false⟩ := by
  unfold deserializeItem
  rw [hs, hd, hf]

theorem deserializeItems_all_no_force : ∀ {ts : List TomlTable},
    (∀ t ∈ ts, (∃ src, t.lookup "source" = some (.str src)) ∧
      (∃ dst, t.lookup "destination" = some (.str dst)) ∧
      t.lookup "force" = none) →
    ∃ its, deserializeItems ts = .ok its ∧ ∀ it ∈ its, it.force = false := by
  intro ts
  induction ts with
  | nil =>
    intro _
    exact ⟨[], rfl, by simp⟩
  | cons t0 ts ih =>
    intro hall
    obtain ⟨⟨src, hs⟩, ⟨dst, hd⟩, hf⟩ := hall t0 (by simp)
    obtain ⟨its0, hits, hforce⟩ := ih (fun t ht => hall t (by simp [ht]))
    refine ⟨⟨src, dst, false⟩ :: its0, ?_, ?_⟩
    · rw [deserializeItems, deserializeItem_no_force hs hd hf, hits]
    · intro it hit
      rcases List.mem_cons.mp hit with rfl | hm
      · rfl
      · exact hforce it hm

/-- **C6**: manifest deserialization against the `ManifestItem` shape
(for any text whose TOML surface parses into the `manifest_items` array
of tables): (a) when the parse succeeds every item supplied both a
`source` string and a `destination` string, and any item that omitted
`force` has `force = false`; (b) an item lacking `source` or
`destination` makes `red_manifesto` fail with a `ManifestParseError`
carrying the underlying diagnostic; (c) tables that supply `source` and
`destination` but omit `force` do parse successfully, with `force =
false` throughout. -/
theorem C6_manifest_required_fields :
    ∀ (s : String) (tables : List TomlTable),
      parseTomlItems s = .ok (some tables) →
      (∀ m, red_manifesto s = .ok m →
        m.manifest_items.length = tables.length ∧
        ∀ i (hti : i < tables.length) (hmi : i < m.manifest_items.length),
          (tables.get ⟨i, hti⟩).lookup "source" =
            some (.str ((m.manifest_items.get ⟨i, hmi⟩).source)) ∧
          (tables.get ⟨i, hti⟩).lookup "destination" =
            some (.str ((m.manifest_items.get ⟨i, hmi⟩).destination)) ∧
          ((tables.get ⟨i, hti⟩).lookup "force" = none →
            (m.manifest_items.get ⟨i, hmi⟩).force = false)) ∧
      ((∃ t ∈ tables, t.lookup "source" = none ∨ t.lookup "destination" = none) →
        ∃ msg, red_manifesto s = .error (.manifestParse msg)) ∧
      ((∀ t ∈ tables, (∃ src, t.lookup "source" = some (.str src)) ∧
          (∃ dst, t.lookup "destination" = some (.str dst)) ∧
          t.lookup "force" = none) →
        ∃ m, red_manifesto s = .ok m ∧ ∀ it ∈ m.manifest_items, it.force = false) := by
  intro s tables hp
  refine ⟨?_, ?_, ?_⟩
  · intro m hm
    unfold red_manifesto at hm
    rw [hp] at hm
    dsimp only at hm
    cases hds : deserializeItems tables with
    | error e => rw [hds] at hm; cases hm
    | ok its =>
      rw [hds] at hm
      cases hm
      exact deserializeItems_ok_rel hds
  · intro hmiss
    obtain ⟨msg, hmsg⟩ := deserializeItems_missing hmiss
    refine ⟨msg, ?_⟩
    unfold red_manifesto
    rw [hp]
    dsimp only
    rw [hmsg]
  · intro hwf
    obtain ⟨its, hits, hforce⟩ := deserializeItems_all_no_force hwf
    refine ⟨⟨its⟩, ?_, hforce⟩
    unfold red_manifesto
    rw [hp]
    dsimp only
    rw [hits]

/-- Witness for C6: a manifest text with one table supplying `source` and
`destination` and omitting `force` parses with `force = false`. -/
theorem C6_manifest_required_fields_witness :
    ∃ m, red_manifesto "[[manifest_items]]\nsource = \"a\"\ndestination = \"b\"\n" = .ok m ∧
      ∀ it ∈ m.manifest_items, it.force = false :=
  (C6_manifest_required_fields "[[manifest_items]]\nsource = \"a\"\ndestination = \"b\"\n"
      [[("source", .str "a"), ("destination", .str "b")]] rfl).2.2
    (by
      intro t ht
      rw [List.mem_singleton] at ht
      subst ht
      exact ⟨⟨"a", rfl⟩, ⟨"b", rfl⟩, rfl⟩)

/-! ### Lemmas for the force-replacement analysis -/

theorem locate_some_elim {fs : Fs} {p : RPath} {dk : List String}
    (h : locate fs p = some dk) :
    dk = absComps fs p ∧
    ∀ i, i + 1 < dk.length → nodeAt fs (dk.take (i + 1)) = some FNode.dir := by
  unfold locate at h
  split at h
  · cases h
  · cases hs : splitLast (absComps fs p) with
    | none =>
      rw [hs] at h
      dsimp only at h
      cases h
      have hnil : absComps fs p = [] := splitLast_eq_none.mp hs
      exact ⟨hnil.symm, fun i hi => absurd hi (by simp)⟩
    | some pc =>
      rcases pc with ⟨pre, c⟩
      rw [hs] at h
      dsimp only at h
      cases hw : walkDir fs [] pre with
      | none =>
        rw [hw] at h
        cases h
      | some r =>
        rw [hw] at h
        have hr : r = pre := by simpa using walkDir_eq_some_append hw
        subst hr
        have hdk : r ++ [c] = dk := by simpa using h
        have hsp : absComps fs p = r ++ [c] := splitLast_eq_some.mp hs
        refine ⟨by rw [hsp, ← hdk], ?_⟩
        intro i hi
        rw [← hdk] at hi ⊢
        have hi' : i < r.length := by
          simp [List.length_append] at hi
          omega
        have hd := walkDir_take_dir hw i hi'
        rw [List.take_append_of_le_length (by omega)]
        simpa using hd

theorem locate_of_short_agree {fs fs' : Fs} {p : RPath} {dk : List String}
    (hcwd : fs'.cwd = fs.cwd)
    (hagree : ∀ q : List String, q.length < dk.length → nodeAt fs' q = nodeAt fs q)
    (h : locate fs p = some dk) :
    locate fs' p = some dk := by
  unfold locate at h ⊢
  by_cases hc : (!p.abs && p.comps.isEmpty) = true
  · rw [if_pos hc] at h
    cases h
  · rw [if_neg hc] at h ⊢
    have habs : absComps fs' p = absComps fs p := by
      unfold absComps
      rw [hcwd]
    rw [habs]
    cases hs : splitLast (absComps fs p) with
    | none =>
      rw [hs] at h
      dsimp only at h ⊢
      exact h
    | some pc =>
      rcases pc with ⟨pre, c⟩
      rw [hs] at h
      dsimp only at h ⊢
      cases hw : walkDir fs [] pre with
      | none =>
        rw [hw] at h
        cases h
      | some r =>
        rw [hw] at h
        have hr : r = pre := by simpa using walkDir_eq_some_append hw
        subst hr
        have hdk : r ++ [c] = dk := by simpa using h
        have hwd : walkDir fs' [] r = walkDir fs [] r := by
          apply walkDir_congr
          intro q hq
          apply hagree
          rw [← hdk]
          simp only [List.length_append, List.length_cons, List.length_nil,
            List.nil_append] at hq ⊢
          omega
        rw [hwd, hw]
        exact h

theorem derefNode_succ (fs : Fs) (fuel : Nat) (k : List String) :
    derefNode fs (fuel + 1) k =
      (match nodeAt fs k with
       | some (FNode.symlink t) => derefNode fs fuel t
       | some n => some n
       | none => none) := rfl

theorem derefKey_succ (fs : Fs) (fuel : Nat) (k : List String) :
    derefKey fs (fuel + 1) k =
      (match nodeAt fs k with
       | some (FNode.symlink t) => derefKey fs fuel t
       | some _ => some k
       | none => none) := rfl

theorem stat_eq_of_node {fs : Fs} {p : RPath} {k : List String} {n : FNode}
    (hl : locate fs p = some k) (hn : nodeAt fs k = some n)
    (hns : ∀ t, n ≠ FNode.symlink t) :
    stat fs p = some n := by
  unfold stat
  rw [hl]
  dsimp only
  rw [derefNode_succ, hn]
  cases n with
  | file c => rfl
  | dir => rfl
  | symlink t => exact absurd rfl (hns t)

theorem pathExists_of_stat {fs : Fs} {p : RPath} {n : FNode}
    (h : stat fs p = some n) : pathExists fs p = true := by
  unfold pathExists
  rw [h]
  rfl

theorem isDir_of_stat_dir {fs : Fs} {p : RPath}
    (h : stat fs p = some FNode.dir) : isDir fs p = true := by
  unfold isDir
  rw [h]

theorem isDir_of_stat_file {fs : Fs} {p : RPath} {c : String}
    (h : stat fs p = some (FNode.file c)) : isDir fs p = false := by
  unfold isDir
  rw [h]

set_option maxHeartbeats 1600000 in
/-- **C3 (amended)**: for every manifest item with `force = true` whose
source path exists and whose destination is a pre-existing node, provided
the joined destination path is not the filesystem root and the source
still canonicalizes after the removal (in particular whenever the source
does not lie inside the destination), the Installer removes the
destination — the whole tree recursively when it is a directory, as a
single file otherwise — and then creates at the destination a symbolic
link to the canonicalized source. -/
theorem C3_force_replaces_destination :
    ∀ (fs : Fs) (base settings : RPath) (item : ManifestItem) (dk : List String),
      item.force = true →
      pathExists fs (rjoin settings (parsePath item.source)) = true →
      locate fs (rjoin base (parsePath item.destination)) = some dk →
      dk ≠ [] →
      ((∀ orig,
        nodeAt fs dk = some FNode.dir →
        canonicalizeOp (removeTree fs dk) (rjoin settings (parsePath item.source)) =
          some orig →
        processItem fs base settings item =
          (.ok false, insertNode (removeTree fs dk) dk (FNode.symlink orig)) ∧
        nodeAt (insertNode (removeTree fs dk) dk (FNode.symlink orig)) dk =
          some (FNode.symlink orig) ∧
        (∀ k, dk.isPrefixOf k = true → k ≠ dk →
          nodeAt (insertNode (removeTree fs dk) dk (FNode.symlink orig)) k = none)) ∧
      (∀ orig c,
        nodeAt fs dk = some (FNode.file c) →
        canonicalizeOp (eraseNode fs dk) (rjoin settings (parsePath item.source)) =
          some orig →
        processItem fs base settings item =
          (.ok false, insertNode (eraseNode fs dk) dk (FNode.symlink orig)) ∧
        nodeAt (insertNode (eraseNode fs dk) dk (FNode.symlink orig)) dk =
          some (FNode.symlink orig))) := by
  intro fs base settings item dk hforce hsrc hld hdk
  obtain ⟨hdke, htake⟩ := locate_some_elim hld
  have hpc : (rjoin base (parsePath item.destination)).comps ≠ [] := by
    intro hc
    cases hab : (rjoin base (parsePath item.destination)).abs with
    | false =>
      unfold locate at hld
      rw [if_pos (by rw [hab, hc]; rfl)] at hld
      cases hld
    | true =>
      apply hdk
      rw [hdke]
      unfold absComps
      rw [hab]
      simp [hc]
  have hpar : parent (rjoin base (parsePath item.destination)) =
      some ⟨(rjoin base (parsePath item.destination)).abs,
            (rjoin base (parsePath item.destination)).comps.dropLast⟩ := by
    unfold parent
    cases hcomp : (rjoin base (parsePath item.destination)).comps with
    | nil => exact absurd hcomp hpc
    | cons a l => rfl
  have hdrop : ∀ fs' : Fs, fs'.cwd = fs.cwd →
      absComps fs' ⟨(rjoin base (parsePath item.destination)).abs,
        (rjoin base (parsePath item.destination)).comps.dropLast⟩ = dk.dropLast := by
    intro fs' hcwd
    have h2 := hdke
    unfold absComps at h2 ⊢
    dsimp only
    cases hab : (rjoin base (parsePath item.destination)).abs with
    | true =>
      rw [hab] at h2
      simp only [if_true] at h2
      rw [h2]
      simp
    | false =>
      rw [hab] at h2
      simp only [Bool.false_eq_true, if_false] at h2
      rw [h2, hcwd]
      simp [List.dropLast_append_of_ne_nil _ hpc]
  have hmk : ∀ fs1 : Fs, fs1.cwd = fs.cwd →
      (∀ q : List String, q.length < dk.length → nodeAt fs1 q = nodeAt fs q) →
      (if pathExists fs1 ⟨(rjoin base (parsePath item.destination)).abs,
          (rjoin base (parsePath item.destination)).comps.dropLast⟩ = true then
        Except.ok fs1
       else createDirAll fs1 ⟨(rjoin base (parsePath item.destination)).abs,
          (rjoin base (parsePath item.destination)).comps.dropLast⟩) = .ok fs1 := by
    intro fs1 hcwd hagree
    by_cases hpe1 : pathExists fs1 ⟨(rjoin base (parsePath item.destination)).abs,
        (rjoin base (parsePath item.destination)).comps.dropLast⟩ = true
    · rw [if_pos hpe1]
    · rw [if_neg hpe1]
      unfold createDirAll
      by_cases hcE : (!(⟨(rjoin base (parsePath item.destination)).abs,
          (rjoin base (parsePath item.destination)).comps.dropLast⟩ : RPath).abs &&
          (⟨(rjoin base (parsePath item.destination)).abs,
          (rjoin base (parsePath item.destination)).comps.dropLast⟩ : RPath).comps.isEmpty) = true
      · rw [if_pos hcE]
      · rw [if_neg hcE]
        rw [hdrop fs1 hcwd]
        apply mkdirs_of_dirs
        intro i hi
        have hlen1 : dk.dropLast.length = dk.length - 1 := by simp
        have hlen0 : 1 ≤ dk.length := by
          cases dk with
          | nil => exact absurd rfl hdk
          | cons a l => simp
        have htk : dk.dropLast.take (i + 1) = dk.take (i + 1) := by
          rw [List.dropLast_eq_take, List.take_take]
          congr 1
          omega
        rw [List.nil_append, htk]
        rw [hagree _ (by
          rw [List.length_take]
          simp only [hlen1] at hi
          omega)]
        exact htake i (by omega)
  have hsym : ∀ (fs1 : Fs) (orig : List String),
      locate fs1 (rjoin base (parsePath item.destination)) = some dk →
      nodeAt fs1 dk = none →
      symlinkOp fs1 orig (rjoin base (parsePath item.destination)) =
        .ok (insertNode fs1 dk (FNode.symlink orig)) := by
    intro fs1 orig hl1 hn1
    unfold symlinkOp
    rw [hl1]
    dsimp only
    rw [if_neg (by
      cases dk with
      | nil => exact absurd rfl hdk
      | cons a l => simp)]
    rw [hn1]
  constructor
  · intro orig hnd hcan
    have hstat : stat fs (rjoin base (parsePath item.destination)) = some FNode.dir :=
      stat_eq_of_node hld hnd (fun t h => by cases h)
    have hpe : pathExists fs (rjoin base (parsePath item.destination)) = true :=
      pathExists_of_stat hstat
    have hid : isDir fs (rjoin base (parsePath item.destination)) = true :=
      isDir_of_stat_dir hstat
    have hagree : ∀ q : List String, q.length < dk.length →
        nodeAt (removeTree fs dk) q = nodeAt fs q :=
      fun _ hq => nodeAt_removeTree_of_short fs hq
    have hloc1 : locate (removeTree fs dk) (rjoin base (parsePath item.destination)) =
        some dk :=
      @locate_of_short_agree fs (removeTree fs dk)
        (rjoin base (parsePath item.destination)) dk rfl hagree hld
    have hnone : nodeAt (removeTree fs dk) dk = none := by
      rw [nodeAt_removeTree,
        if_pos (List.isPrefixOf_iff_prefix.mpr (List.prefix_refl dk))]
    have hrm : removeDirAll fs (rjoin base (parsePath item.destination)) =
        .ok (removeTree fs dk) := by
      unfold removeDirAll
      rw [hld]
      dsimp only
      rw [hnd]
    refine ⟨?_, ?_, ?_⟩
    · unfold processItem
      rw [if_neg (by simp [hsrc])]
      dsimp only
      rw [if_neg (by simp [hpe, hforce])]
      rw [hpe, if_pos rfl]
      rw [hid, if_pos rfl]
      rw [hrm]
      dsimp only
      rw [hpar]
      dsimp only
      rw [hmk (removeTree fs dk) rfl hagree]
      dsimp only
      rw [hcan]
      dsimp only
      rw [hsym (removeTree fs dk) orig hloc1 hnone]
    · rw [nodeAt_insertNode]
      simp
    · intro k hkp hkne
      rw [nodeAt_insertNode, if_neg hkne, nodeAt_removeTree, if_pos hkp]
  · intro orig c hnd hcan
    have hstat : stat fs (rjoin base (parsePath item.destination)) =
        some (FNode.file c) :=
      stat_eq_of_node hld hnd (fun t h => by cases h)
    have hpe : pathExists fs (rjoin base (parsePath item.destination)) = true :=
      pathExists_of_stat hstat
    have hid : isDir fs (rjoin base (parsePath item.destination)) = false :=
      isDir_of_stat_file hstat
    have hagree : ∀ q : List String, q.length < dk.length →
        nodeAt (eraseNode fs dk) q = nodeAt fs q := by
      intro q hq
      apply nodeAt_eraseNode_of_ne
      intro he
      rw [he] at hq
      omega
    have hloc1 : locate (eraseNode fs dk) (rjoin base (parsePath item.destination)) =
        some dk :=
      @locate_of_short_agree fs (eraseNode fs dk)
        (rjoin base (parsePath item.destination)) dk rfl hagree hld
    have hnone : nodeAt (eraseNode fs dk) dk = none := by
      rw [nodeAt_eraseNode, if_pos rfl]
    have hrm : removeFile fs (rjoin base (parsePath item.destination)) =
        .ok (eraseNode fs dk) := by
      unfold removeFile
      rw [hld]
      dsimp only
      rw [hnd]
    refine ⟨?_, ?_⟩
    · unfold processItem
      rw [if_neg (by simp [hsrc])]
      dsimp only
      rw [if_neg (by simp [hpe, hforce])]
      rw [hpe, if_pos rfl]
      rw [hid, if_neg (by decide)]
      rw [hrm]
      dsimp only
      rw [hpar]
      dsimp only
      rw [hmk (eraseNode fs dk) rfl hagree]
      dsimp only
      rw [hcan]
      dsimp only
      rw [hsym (eraseNode fs dk) orig hloc1 hnone]
    · rw [nodeAt_insertNode]
      simp

/-- **C3 counterexample**: when the settings directory lies *inside* the
destination directory, the item satisfies the claim's premises (`force`
set, source exists, destination a pre-existing directory), but removing
the destination tree deletes the source, canonicalization then fails,
and no symbolic link is ever created: the run aborts with an error after
the removal. -/
theorem C3_counterexample :
    pathExists fsSrcInsideDest
      (rjoin ⟨true, ["h", "d", "set"]⟩ (parsePath "src")) = true ∧
    nodeAt fsSrcInsideDest ["h", "d"] = some FNode.dir ∧
    processItem fsSrcInsideDest ⟨true, ["h"]⟩ ⟨true, ["h", "d", "set"]⟩
      ⟨"src", "d", true⟩ =
      (.error (.ioError "canonicalize"), removeTree fsSrcInsideDest ["h", "d"]) :=
  ⟨rfl, rfl, rfl⟩

/-- Witness for the amended C3: a forced item whose destination is a
pre-existing directory containing a file; the tree is removed and the
symbolic link to the canonical source is created. -/
theorem C3_force_replaces_destination_witness :
    processItem fsForceDir ⟨true, ["h"]⟩ ⟨true, ["s"]⟩ ⟨"src", "d", true⟩ =
      (.ok false, insertNode (removeTree fsForceDir ["h", "d"]) ["h", "d"]
        (FNode.symlink ["s", "src"])) :=
  ((C3_force_replaces_destination fsForceDir ⟨true, ["h"]⟩ ⟨true, ["s"]⟩
      ⟨"src", "d", true⟩ ["h", "d"] rfl rfl rfl (by decide)).1
    ["s", "src"] rfl rfl).1
